import Mathlib

/-!
Verification of the Windermere SCIM server (github.com/Sambruk/windermere).

This file shallowly embeds the parts of the Go sources that the checked
properties are about:

* the SS12000:2018 resource model (`ss12000v1`): the `Activity` JSON
  normalisation of the legacy singular `group` field;
* the validator combinators (`windermere`): `MultiValidator`,
  `UUIDValidator`, `SchoolUnitCodeValidator`;
* the SS12000 v2 import helpers (`ss12000v2import`): `appendUnique`,
  `removeIdsFromMap`, the per-query-type reconcile slice of
  `IncrementalImport`, the import history (`RecordMostRecent`), and the
  scheduling predicates `timeForFullImport` / `timeForIncrementalImport`;
* the SQL backend (`windermere/sqlbackend.go`): the per-operation
  transactional semantics of `Create` / `Update` / `Delete` over an abstract
  relational state, and the adaptive transaction splitting of `Bulk`.

Go maps are modelled as association lists, Go's `time.Time` as `Nat`
(history watermarks, `0` = Go's zero time) or `Int` (wall-clock arithmetic
with `time.Sub`), database state as a list of rows, and infrastructure
nondeterminism (a failing `tx.Commit`) as an explicit oracle indexed by the
number of commit attempts so far.  All definitions are executable.
-/

namespace Windermere

/-! ## ss12000v1: the Activity resource and its JSON normalisation -/

/-- `ss12000v1.SCIMReference`: a reference to another SCIM resource. -/
structure SCIMReference where
  value : String
  ref : String
deriving DecidableEq

/-- `ss12000v1.ActivityJSON`: the decoded wire form of an Activity.  The
singular `group` field is incorrect according to the spec but used
traditionally by the EGIL client; `groups` is the spec form. -/
structure ActivityJSON where
  externalID : String
  displayName : String
  owner : SCIMReference
  group : Option SCIMReference
  groups : List SCIMReference
  teachers : List SCIMReference
  parentActivity : List SCIMReference
deriving DecidableEq

/-- `ss12000v1.Activity`: the parsed Activity; only the plural `groups`
field exists. -/
structure Activity where
  externalID : String
  displayName : String
  owner : SCIMReference
  groups : List SCIMReference
  teachers : List SCIMReference
  parentActivity : List SCIMReference
deriving DecidableEq

/-- The field assignments performed by `Activity.UnmarshalJSON` after the
generic decode into `ActivityJSON`: if the legacy singular `group` field is
present it becomes the one-element `groups` list, otherwise the plural
`groups` field is taken as is. -/
def activityFromJSON (ajson : ActivityJSON) : Activity :=
  { externalID := ajson.externalID
    displayName := ajson.displayName
    owner := ajson.owner
    groups :=
      match ajson.group with
      | some g => [g]
      | none => ajson.groups
    teachers := ajson.teachers
    parentActivity := ajson.parentActivity }

/-! ## windermere/validation.go: validators -/

/-- `ss12000v1.SchoolUnit` (the fields read by the validators plus the
remaining structure). -/
structure SchoolUnit where
  externalID : String
  schoolUnitCode : String
  displayName : String
  organisation : Option SCIMReference
  schoolUnitGroup : Option SCIMReference
  schoolTypes : Option (List String)
  municipalityCode : Option String
deriving DecidableEq

/-- An `ss12000v1.Object`: the closed set of seven entity types.  The
validators read `GetID` of any object and the school unit code of a
`SchoolUnit`; the other fields of the remaining six types are irrelevant
here and are represented by their id. -/
inductive SS12000Object where
  | user (id : String)
  | studentGroup (id : String)
  | organisation (id : String)
  | schoolUnitGroup (id : String)
  | schoolUnit (su : SchoolUnit)
  | employment (id : String)
  | activity (a : Activity)
deriving DecidableEq

/-- `Object.GetID`: the object's UUID (id/externalId). -/
def SS12000Object.GetID : SS12000Object → String
  | .user id => id
  | .studentGroup id => id
  | .organisation id => id
  | .schoolUnitGroup id => id
  | .schoolUnit su => su.externalID
  | .employment id => id
  | .activity a => a.externalID

/-- A `Validator` does some kind of validation of an SS12000 object; `none`
means the object passed, `some msg` is the error. -/
def Validator : Type := SS12000Object → Option String

/-- `MultiValidator` creates a single Validator from several.  The
validators are applied in the order in the slice; the first error is
returned. -/
def MultiValidator : List Validator → Validator
  | [], _ => none
  | v :: rest, obj =>
    match v obj with
    | some e => some e
    | none => MultiValidator rest obj

/-- One character of `[0-9a-fA-F]`. -/
def isHexChar (c : Char) : Bool :=
  ('0' ≤ c && c ≤ '9') || ('a' ≤ c && c ≤ 'f') || ('A' ≤ c && c ≤ 'F')

/-- Consume exactly `n` hex characters. -/
def hexRun : Nat → List Char → Option (List Char)
  | 0, cs => some cs
  | _ + 1, [] => none
  | n + 1, c :: cs => if isHexChar c then hexRun n cs else none

/-- Consume a literal dash. -/
def dashChar : List Char → Option (List Char)
  | '-' :: cs => some cs
  | _ => none

/-- The anchored, case-insensitive regular expression used by
`UUIDValidator`:
8 hex chars, dash, 4 hex, dash, 4 hex, dash, 4 hex, dash, 12 hex. -/
def matchesUUID (s : String) : Bool :=
  let r := (hexRun 8 s.toList).bind dashChar
  let r := ((r.bind (hexRun 4)).bind dashChar)
  let r := ((r.bind (hexRun 4)).bind dashChar)
  let r := ((r.bind (hexRun 4)).bind dashChar)
  let r := r.bind (hexRun 12)
  r == some []

/-- `UUIDValidator` ensures the object has a valid UUID. -/
def UUIDValidator : Validator := fun obj =>
  if matchesUUID obj.GetID then none
  else some ("invalid UUID: " ++ obj.GetID)

/-- Do the first `n` characters exist and are they all decimal digits? -/
def startsWithDigits : Nat → List Char → Bool
  | 0, _ => true
  | _ + 1, [] => false
  | n + 1, c :: cs => c.isDigit && startsWithDigits n cs

/-- Unanchored match of `[0-9]{n}`: some position starts a run of `n`
decimal digits. -/
def containsDigitRun (n : Nat) : List Char → Bool
  | [] => startsWithDigits n []
  | c :: cs => startsWithDigits n (c :: cs) || containsDigitRun n cs

/-- `SchoolUnitCodeValidator` ensures the object has a valid schoolUnitCode
(if it's a school unit); the code must match `[0-9]{8}` somewhere. -/
def SchoolUnitCodeValidator : Validator := fun obj =>
  match obj with
  | .schoolUnit su =>
    if containsDigitRun 8 su.schoolUnitCode.toList then none
    else some ("invalid school unit code: " ++ su.schoolUnitCode)
  | _ => none

/-! ## ss12000v2import/incrementalimport.go: appendUnique and the
deleted-entities reconciliation -/

/-- The loop of `appendUnique` over the concatenated list, carrying the set
of ids seen so far (the Go `ids` map, modelled as the list of its keys). -/
def appendUniqueLoop {T U : Type} [DecidableEq U] (getId : T → U) :
    List T → List U → List T
  | [], _ => []
  | obj :: rest, ids =>
    if getId obj ∈ ids then appendUniqueLoop getId rest ids
    else obj :: appendUniqueLoop getId rest (getId obj :: ids)

/-- `appendUnique list1 list2 getId`: appends the two lists, skipping any
object whose id was already seen. -/
def appendUnique {T U : Type} [DecidableEq U] (list1 list2 : List T)
    (getId : T → U) : List T :=
  appendUniqueLoop getId (list1 ++ list2) []

/-- Reference form of de-duplication, stated the way the property reads:
keep the first occurrence of each id, drop every later duplicate. -/
def dedupFirstById {T U : Type} [DecidableEq U] (getId : T → U) :
    List T → List T
  | [] => []
  | x :: xs => x :: dedupFirstById getId (xs.filter fun y => getId y ≠ getId x)
termination_by l => l.length
decreasing_by
  simp only [List.length_cons]
  exact Nat.lt_succ_of_le (List.length_filter_le _ _)

/-- `removeIdsFromMap m objs getId`: remove the id of every object in
`objs` from the map `m` (modelled as the list of its keys). -/
def removeIdsFromMap {T U : Type} [DecidableEq U] (m : List U) (objs : List T)
    (getId : T → U) : List U :=
  objs.foldl (fun acc obj => acc.filter (fun k => k ≠ getId obj)) m

/-- The result of one per-query-type slice of `IncrementalImport`:
the v1 list fed to the `Replace*` call (upserts, `deleteOthers=false`) and
the remaining deleted-entities keys fed to the `Delete*` call afterwards. -/
structure ReconcileOutcome (V U : Type) where
  upserts : List V
  deletes : List U
deriving DecidableEq

/-- The per-query-type slice of `IncrementalImport` as performed for
principal organisations, persons, groups, duties and activities: union the
created-after and modified-after fetch results by id (`appendUnique`),
remove those ids from the deleted-entities set (`removeIdsFromMap`),
transform each retained v2 object to its v1 form and upsert the converted
list, and delete only what remains in the set.  `toV1` returns `none` for
objects the loop silently skips: persons without a principal name
(`personToV1` error), duties without a person reference (`dutyToV1` error),
and groups whose organisation is not a fetched school unit; for principal
organisations and activities the conversion is total. -/
def incrementalReconcileType {T U V : Type} [DecidableEq U] (deletedSet : List U)
    (createdAfter modifiedAfter : List T) (getId : T → U)
    (toV1 : T → Option V) : ReconcileOutcome V U :=
  let objs := appendUnique createdAfter modifiedAfter getId
  ⟨objs.filterMap toV1, removeIdsFromMap deletedSet objs getId⟩

/-! ## ss12000v2import/importhistory.go: the watermark record -/

/-- Go's `time.Time.After`: strictly later.  Watermarks are modelled as
`Nat` with `0` for Go's zero time. -/
def timeAfter (a b : Nat) : Bool := b < a

/-- Lookup in a Go map modelled as an association list (first binding
wins). -/
def lookupWatermark (m : List (String × Nat)) (queryType : String) :
    Option Nat :=
  (m.find? fun p => p.1 == queryType).map (·.2)

/-- The per-tenant most-recent created/modified watermarks by query type
(`mostRecentlyCreatedByQueryType` / `mostRecentlyModifiedByQueryType`). -/
structure ImportHistoryState where
  mostRecentlyCreatedByQueryType : List (String × Nat)
  mostRecentlyModifiedByQueryType : List (String × Nat)
deriving DecidableEq

/-- `GetMostRecentlyCreated`: the stored watermark, zero time if never
set. -/
def GetMostRecentlyCreated (h : ImportHistoryState) (queryType : String) : Nat :=
  (lookupWatermark h.mostRecentlyCreatedByQueryType queryType).getD 0

/-- `GetMostRecentlyModified`: the stored watermark, zero time if never
set. -/
def GetMostRecentlyModified (h : ImportHistoryState) (queryType : String) : Nat :=
  (lookupWatermark h.mostRecentlyModifiedByQueryType queryType).getD 0

/-- `RecordMostRecent` (identical logic in `InMemoryImportHistory` and
`PersistenceImportHistory`): start from the stored watermark for the query
type (zero time if absent), fold the incoming created and modified
timestamps through `if t.After(acc) then t else acc`, and store the
results back. -/
def RecordMostRecent (h : ImportHistoryState) (created modified : List Nat)
    (queryType : String) : ImportHistoryState :=
  let createdMostRecently :=
    (lookupWatermark h.mostRecentlyCreatedByQueryType queryType).getD 0
  let modifiedMostRecently :=
    (lookupWatermark h.mostRecentlyModifiedByQueryType queryType).getD 0
  let createdMostRecently :=
    created.foldl (fun acc t => if timeAfter t acc then t else acc)
      createdMostRecently
  let modifiedMostRecently :=
    modified.foldl (fun acc t => if timeAfter t acc then t else acc)
      modifiedMostRecently
  { mostRecentlyCreatedByQueryType :=
      (queryType, createdMostRecently) :: h.mostRecentlyCreatedByQueryType
    mostRecentlyModifiedByQueryType :=
      (queryType, modifiedMostRecently) :: h.mostRecentlyModifiedByQueryType }

/-! ## ss12000v2import/importrunner.go: scheduling -/

/-- The schedule parameters of a `RunnerConfig` (durations in the same unit
as the `Int` wall-clock timestamps). -/
structure RunnerSchedule where
  fullImportFrequency : Int
  fullImportRetryWait : Int
  incrementalImportFrequency : Int
  incrementalImportRetryWait : Int
deriving DecidableEq

/-- The four timestamps the runner reads from the import history
(`GetTimeOfLastStarted/CompletedFull/IncrementalImport`). -/
structure ImportTimes where
  lastStartedFull : Int
  lastCompletedFull : Int
  lastStartedIncremental : Int
  lastCompletedIncremental : Int
deriving DecidableEq

/-- `timeForFullImport` at wall time `now`: if the last full import is
still unfinished (`completed.Before(started)`) and the retry wait has not
elapsed, no; otherwise yes exactly when the frequency has elapsed since the
last completion. -/
def timeForFullImport (now : Int) (config : RunnerSchedule) (h : ImportTimes) :
    Bool :=
  if h.lastCompletedFull < h.lastStartedFull ∧
      now - h.lastStartedFull < config.fullImportRetryWait then false
  else decide (now - h.lastCompletedFull > config.fullImportFrequency)

/-- `timeForIncrementalImport` at wall time `now`: never when it is time
for a full import; else gated by the incremental retry wait and
frequency. -/
def timeForIncrementalImport (now : Int) (config : RunnerSchedule)
    (h : ImportTimes) : Bool :=
  if timeForFullImport now config h then false
  else if h.lastCompletedIncremental < h.lastStartedIncremental ∧
      now - h.lastStartedIncremental < config.incrementalImportRetryWait then
    false
  else decide (now - h.lastCompletedIncremental > config.incrementalImportFrequency)

/-- What `importTick` decides to run. -/
inductive ImportKind where
  | full
  | incremental
  | nothing
deriving DecidableEq

/-- The decision structure of `ImportRunner.importTick`: try a full import
first, otherwise an incremental import, otherwise do nothing. -/
def importTickChoice (now : Int) (config : RunnerSchedule) (h : ImportTimes) :
    ImportKind :=
  if timeForFullImport now config h then .full
  else if timeForIncrementalImport now config h then .incremental
  else .nothing

/-! ## windermere/sqlbackend.go: the transactional backend and Bulk -/

/-- `scimserverlite.SCIMErrorType`. -/
inductive SCIMErrorType where
  | conflictError
  | missingResourceError
  | malformedResourceError
deriving DecidableEq

/-- An error surfaced by the backend: either a typed SCIM error
(`scimserverlite.NewError`) or an untyped one (`fmt.Errorf`, a failing
commit, ...). -/
inductive BackendError where
  | scim (t : SCIMErrorType) (message : String)
  | other (message : String)
deriving DecidableEq

/-- A successfully parsed `ss12000v1` object as the backend stores it: its
id (`GetID()`) and the rest of its typed content, opaque here. -/
structure ParsedObject where
  id : String
  content : String
deriving DecidableEq

/-- `windermere.ObjectParser`: parses a resource of the given type; `none`
is a parse failure. -/
def ObjectParser : Type := String → String → Option ParsedObject

/-- One row of a main table: primary key (tenant, id) within the table. -/
structure DBRow where
  tenant : String
  table : String
  id : String
  obj : ParsedObject
deriving DecidableEq

/-- The relational state: the rows of the seven main tables. -/
abbrev DB : Type := List DBRow

/-- `SELECT ... WHERE tenant = :tenant AND id = :id` on a main table. -/
def lookupRow (db : DB) (tenant table id : String) : Option ParsedObject :=
  (db.find? fun r => r.tenant == tenant && r.table == table && r.id == id).map
    (·.obj)

/-- `mainTable`: the closed map from resource type to main table name; an
unrecognized resource type is an error. -/
def mainTable (resourceType : String) : Option String :=
  let tableForType : List (String × String) :=
    [("Users", "Users"), ("StudentGroups", "StudentGroups"),
     ("Organisations", "Organisations"), ("SchoolUnitGroups", "SchoolUnitGroups"),
     ("SchoolUnits", "SchoolUnits"), ("Employments", "Employments"),
     ("Activities", "Activities")]
  (tableForType.find? fun p => p.1 == resourceType).map (·.2)

/-- `ensureHasRecord`: `MissingResource` when no row with this (tenant, id)
exists in the table. -/
def ensureHasRecord (db : DB) (table tenant resourceID : String) :
    Option BackendError :=
  match lookupRow db tenant table resourceID with
  | none =>
    some (.scim .missingResourceError ("couldn't find object " ++ resourceID))
  | some _ => none

/-- `ensureDoesntHaveRecord`: `Conflict` when `ensureHasRecord` succeeds;
its `MissingResource` outcome means the id is free. -/
def ensureDoesntHaveRecord (db : DB) (table tenant resourceID : String) :
    Option BackendError :=
  match ensureHasRecord db table tenant resourceID with
  | none => some (.scim .conflictError ("object " ++ resourceID ++ " already exists"))
  | some _ => none

/-- `objectCreator`: `INSERT` of the main row (and its owned child rows,
part of `obj` here). -/
def objectCreator (db : DB) (tenant table : String) (obj : ParsedObject) : DB :=
  db ++ [⟨tenant, table, obj.id, obj⟩]

/-- `objectMutator`: `UPDATE ... WHERE tenant = :tenant AND id = :id` with
the id taken from the object itself, plus delete-and-reinsert of the owned
child rows. -/
def objectMutator (db : DB) (tenant table : String) (obj : ParsedObject) : DB :=
  db.map fun r =>
    if r.tenant == tenant && r.table == table && r.id == obj.id then
      { r with obj := obj }
    else r

/-- `DELETE FROM table WHERE tenant = :tenant AND id = :id` (child rows go
by cascade). -/
def deleteRow (db : DB) (tenant table id : String) : DB :=
  db.filter fun r => !(r.tenant == tenant && r.table == table && r.id == id)

/-- `SQLBackend.create` (inside a transaction): resolve the main table,
check the id is free, insert. -/
def txCreate (db : DB) (tenant resourceType : String) (obj : ParsedObject) :
    Except BackendError DB :=
  match mainTable resourceType with
  | none => .error (.other ("unrecognized resource type " ++ resourceType))
  | some table =>
    match ensureDoesntHaveRecord db table tenant obj.id with
    | some e => .error e
    | none => .ok (objectCreator db tenant table obj)

/-- `SQLBackend.update` (inside a transaction): resolve the main table,
check the addressed id exists, mutate. -/
def txUpdate (db : DB) (tenant resourceType resourceID : String)
    (obj : ParsedObject) : Except BackendError DB :=
  match mainTable resourceType with
  | none => .error (.other ("unrecognized resource type " ++ resourceType))
  | some table =>
    match ensureHasRecord db table tenant resourceID with
    | some e => .error e
    | none => .ok (objectMutator db tenant table obj)

/-- `SQLBackend.delete` (inside a transaction): resolve the main table,
check the addressed id exists, delete. -/
def txDelete (db : DB) (tenant resourceType resourceID : String) :
    Except BackendError DB :=
  match mainTable resourceType with
  | none => .error (.other ("unrecognized resource type " ++ resourceType))
  | some table =>
    match ensureHasRecord db table tenant resourceID with
    | some e => .error e
    | none => .ok (deleteRow db tenant table resourceID)

/-- `scimserverlite.OperationType`. -/
inductive OperationType where
  | createOperation
  | updateOperation
  | deleteOperation
deriving DecidableEq

/-- `scimserverlite.BulkOperation`. -/
structure BulkOperation where
  resourceType : String
  resourceID : String
  resource : String
  type : OperationType
deriving DecidableEq

/-- `scimserverlite.BulkOperationResult`. -/
structure BulkOperationResult where
  resourceType : String
  resourceID : String
  type : OperationType
  error : Option BackendError
deriving DecidableEq

/-- `scimserverlite.NewBulkOperationResult`. -/
def NewBulkOperationResult (operation : BulkOperation)
    (err : Option BackendError) : BulkOperationResult :=
  ⟨operation.resourceType, operation.resourceID, operation.type, err⟩

/-- Whether the `k`-th `tx.Commit` attempt of this run fails.  Commit
failures are infrastructure nondeterminism; they are made an explicit
input. -/
def CommitOracle : Type := Nat → Bool

/-- The oracle under which every commit succeeds. -/
def noCommitFailures : CommitOracle := fun _ => false

/-- The (untyped) error of a failing `tx.Commit`. -/
def commitError : BackendError := .other "commit failed"

/-- The body of the `Bulk` transaction loop for one operation: parse on
Create/Update (a parse failure is `MalformedResource`), then the in-transaction
create/update/delete. -/
def opExecTx (parser : ObjectParser) (tenant : String) (op : BulkOperation)
    (db : DB) : Except BackendError DB :=
  match op.type with
  | .createOperation =>
    match parser op.resourceType op.resource with
    | none => .error (.scim .malformedResourceError "Failed to parse resource")
    | some obj => txCreate db tenant op.resourceType obj
  | .updateOperation =>
    match parser op.resourceType op.resource with
    | none => .error (.scim .malformedResourceError "Failed to parse resource")
    | some obj => txUpdate db tenant op.resourceType op.resourceID obj
  | .deleteOperation => txDelete db tenant op.resourceType op.resourceID

/-- `SQLBackend.Create`: parse, run the create in its own transaction,
commit (consulting the oracle); every error rolls back, leaving the state
unchanged. -/
def Create (parser : ObjectParser) (oracle : CommitOracle)
    (tenant resourceType resource : String) (db : DB) (cnt : Nat) :
    Option BackendError × DB × Nat :=
  match parser resourceType resource with
  | none => (some (.scim .malformedResourceError "Failed to parse resource"), db, cnt)
  | some obj =>
    match txCreate db tenant resourceType obj with
    | .error e => (some e, db, cnt)
    | .ok db2 =>
      if oracle cnt then (some commitError, db, cnt + 1) else (none, db2, cnt + 1)

/-- `SQLBackend.Update`: parse, run the update in its own transaction,
commit. -/
def Update (parser : ObjectParser) (oracle : CommitOracle)
    (tenant resourceType resourceID resource : String) (db : DB) (cnt : Nat) :
    Option BackendError × DB × Nat :=
  match parser resourceType resource with
  | none => (some (.scim .malformedResourceError "Failed to parse resource"), db, cnt)
  | some obj =>
    match txUpdate db tenant resourceType resourceID obj with
    | .error e => (some e, db, cnt)
    | .ok db2 =>
      if oracle cnt then (some commitError, db, cnt + 1) else (none, db2, cnt + 1)

/-- `SQLBackend.Delete`: run the delete in its own transaction, commit. -/
def Delete (oracle : CommitOracle) (tenant resourceType resourceID : String)
    (db : DB) (cnt : Nat) : Option BackendError × DB × Nat :=
  match txDelete db tenant resourceType resourceID with
  | .error e => (some e, db, cnt)
  | .ok db2 =>
    if oracle cnt then (some commitError, db, cnt + 1) else (none, db2, cnt + 1)

/-- One bulk operation executed through the public single-operation
methods, as done by `Bulk` for a batch of size one and by the
commit-failure replay. -/
def execSingle (parser : ObjectParser) (oracle : CommitOracle)
    (tenant : String) (op : BulkOperation) (db : DB) (cnt : Nat) :
    Option BackendError × DB × Nat :=
  match op.type with
  | .createOperation => Create parser oracle tenant op.resourceType op.resource db cnt
  | .updateOperation =>
    Update parser oracle tenant op.resourceType op.resourceID op.resource db cnt
  | .deleteOperation => Delete oracle tenant op.resourceType op.resourceID db cnt

/-- The transaction loop of `Bulk`: run the operations in order inside one
transaction; stop at the first failure, reporting its position, the failed
operation and its error; otherwise return all (successful) results and the
transaction's final state. -/
def txLoop (parser : ObjectParser) (tenant : String) :
    List BulkOperation → DB →
    Except (Nat × BulkOperation × BackendError) (List BulkOperationResult × DB)
  | [], db => .ok ([], db)
  | op :: rest, db =>
    match opExecTx parser tenant op db with
    | .error e => .error (0, op, e)
    | .ok db2 =>
      match txLoop parser tenant rest db2 with
      | .error (i, o, e) => .error (i + 1, o, e)
      | .ok (results, db3) => .ok (NewBulkOperationResult op none :: results, db3)

theorem txLoop_error_lt {parser : ObjectParser} {tenant : String}
    {ops : List BulkOperation} {db : DB} {i : Nat} {op : BulkOperation}
    {e : BackendError} (h : txLoop parser tenant ops db = .error (i, op, e)) :
    i < ops.length := by
  induction ops generalizing db i op e with
  | nil => simp [txLoop] at h
  | cons hd tl ih =>
    rcases hexec : opExecTx parser tenant hd db with e2 | db2
    · rw [txLoop, hexec] at h
      simp only [Except.error.injEq, Prod.mk.injEq] at h
      simp only [List.length_cons]
      omega
    · rcases hrest : txLoop parser tenant tl db2 with ⟨j, o2, e2⟩ | ⟨rs, db3⟩
      · rw [txLoop, hexec] at h
        dsimp only at h
        rw [hrest] at h
        simp only [Except.error.injEq, Prod.mk.injEq] at h
        have := ih hrest
        simp only [List.length_cons]
        omega
      · rw [txLoop, hexec] at h
        dsimp only at h
        rw [hrest] at h
        simp at h

/-- The fallback after a failed batch commit: run every operation of the
batch in its own transaction, recording each result. -/
def replayAll (parser : ObjectParser) (oracle : CommitOracle) (tenant : String) :
    List BulkOperation → DB → Nat → List BulkOperationResult × DB × Nat
  | [], db, cnt => ([], db, cnt)
  | op :: rest, db, cnt =>
    let s := execSingle parser oracle tenant op db cnt
    let r := replayAll parser oracle tenant rest s.2.1 s.2.2
    (NewBulkOperationResult op s.1 :: r.1, r.2.1, r.2.2)

/-- `TransactionMaxSize`: batches of at most 50 operations share one
transaction. -/
def TransactionMaxSize : Nat := 50

/-- `SQLBackend.Bulk`.  `cancelled` is `util.IsDone(ctx)`; `cnt` counts the
commit attempts made so far (consulted by the oracle).  A batch of one runs
through the public single-operation methods; an oversized batch is halved;
otherwise all operations run in one transaction.  If the operation at
position 0 fails, record the failure and recurse on the rest; if the first
failure is at a later position `i`, recurse on `[0:i]`, `[i:i+1]` and
`[i+1:]` and concatenate; if everything succeeds but the commit fails,
replay the batch one operation per transaction. -/
def Bulk (parser : ObjectParser) (oracle : CommitOracle) (cancelled : Bool)
    (tenant : String) (operations : List BulkOperation) (db : DB) (cnt : Nat) :
    Except String (List BulkOperationResult × DB × Nat) :=
  if cancelled then .error "Bulk operation terminated prematurely"
  else
    match operations with
    | [] => .ok ([], db, cnt)
    | [op] =>
      let s := execSingle parser oracle tenant op db cnt
      .ok ([NewBulkOperationResult op s.1], s.2.1, s.2.2)
    | op1 :: op2 :: rest =>
      if TransactionMaxSize < (op1 :: op2 :: rest).length then
        match Bulk parser oracle cancelled tenant
            ((op1 :: op2 :: rest).take ((op1 :: op2 :: rest).length / 2)) db cnt with
        | .error msg => .error msg
        | .ok (listA, db2, cnt2) =>
          match Bulk parser oracle cancelled tenant
              ((op1 :: op2 :: rest).drop ((op1 :: op2 :: rest).length / 2)) db2 cnt2 with
          | .error msg => .error msg
          | .ok (listB, db3, cnt3) => .ok (listA ++ listB, db3, cnt3)
      else
        match htx : txLoop parser tenant (op1 :: op2 :: rest) db with
        | .ok (resultList, db2) =>
          if oracle cnt then
            .ok (replayAll parser oracle tenant (op1 :: op2 :: rest) db (cnt + 1))
          else .ok (resultList, db2, cnt + 1)
        | .error (i, op, e) =>
          if i = 0 then
            match Bulk parser oracle cancelled tenant ((op1 :: op2 :: rest).drop 1) db cnt with
            | .error msg => .error msg
            | .ok (rest2, db2, cnt2) =>
              .ok (NewBulkOperationResult op (some e) :: rest2, db2, cnt2)
          else
            match Bulk parser oracle cancelled tenant ((op1 :: op2 :: rest).take i) db cnt with
            | .error msg => .error msg
            | .ok (listA, db2, cnt2) =>
              match Bulk parser oracle cancelled tenant
                  (((op1 :: op2 :: rest).drop i).take 1) db2 cnt2 with
              | .error msg => .error msg
              | .ok (listB, db3, cnt3) =>
                match Bulk parser oracle cancelled tenant
                    ((op1 :: op2 :: rest).drop (i + 1)) db3 cnt3 with
                | .error msg => .error msg
                | .ok (listC, db4, cnt4) => .ok (listA ++ listB ++ listC, db4, cnt4)
termination_by operations.length
decreasing_by
  · simp only [List.length_take, List.length_cons]
    omega
  · simp only [List.length_drop, List.length_cons]
    omega
  · simp only [List.length_drop, List.length_cons]
    omega
  · have := txLoop_error_lt htx
    simp only [List.length_take, List.length_cons] at this ⊢
    omega
  · simp only [List.length_take, List.length_drop, List.length_cons]
    omega
  · simp only [List.length_drop, List.length_cons]
    omega

/-! ## Reference semantics for Bulk and unfolding lemmas -/

/-- Reference sequential semantics: run each operation in order; a failing
operation records its error and leaves the state unchanged, a successful
one records no error and applies its effect.  `Bulk` (absent cancellation
and commit failures) is proved to agree with this. -/
def seqExec (parser : ObjectParser) (tenant : String) :
    List BulkOperation → DB → List BulkOperationResult × DB
  | [], db => ([], db)
  | op :: rest, db =>
    match opExecTx parser tenant op db with
    | .ok db2 =>
      let r := seqExec parser tenant rest db2
      (NewBulkOperationResult op none :: r.1, r.2)
    | .error e =>
      let r := seqExec parser tenant rest db
      (NewBulkOperationResult op (some e) :: r.1, r.2)

theorem seqExec_append (parser : ObjectParser) (tenant : String)
    (l1 l2 : List BulkOperation) (db : DB) :
    seqExec parser tenant (l1 ++ l2) db
      = ((seqExec parser tenant l1 db).1
           ++ (seqExec parser tenant l2 (seqExec parser tenant l1 db).2).1,
         (seqExec parser tenant l2 (seqExec parser tenant l1 db).2).2) := by
  induction l1 generalizing db with
  | nil => simp [seqExec]
  | cons hd tl ih =>
    rcases hexec : opExecTx parser tenant hd db with e | db2 <;>
      simp [seqExec, hexec, ih]

theorem txLoop_ok_seqExec {parser : ObjectParser} {tenant : String}
    {ops : List BulkOperation} {db db2 : DB} {rs : List BulkOperationResult}
    (h : txLoop parser tenant ops db = .ok (rs, db2)) :
    seqExec parser tenant ops db = (rs, db2) := by
  induction ops generalizing db rs with
  | nil =>
    rw [txLoop] at h
    simp only [Except.ok.injEq, Prod.mk.injEq] at h
    simp [seqExec, h.1, h.2]
  | cons hd tl ih =>
    rcases hexec : opExecTx parser tenant hd db with e | dbx
    · rw [txLoop, hexec] at h
      dsimp only at h
      simp at h
    · rw [txLoop, hexec] at h
      dsimp only at h
      rcases hrest : txLoop parser tenant tl dbx with ⟨j, o2, e2⟩ | ⟨rs2, db3⟩ <;>
        rw [hrest] at h
      · dsimp only at h
        simp at h
      · dsimp only at h
        simp only [Except.ok.injEq, Prod.mk.injEq] at h
        obtain ⟨h1, h2⟩ := h
        subst h1; subst h2
        simp [seqExec, hexec, ih hrest]

theorem txLoop_error_decompose {parser : ObjectParser} {tenant : String}
    {ops : List BulkOperation} {db : DB} {i : Nat} {op : BulkOperation}
    {e : BackendError} (h : txLoop parser tenant ops db = .error (i, op, e)) :
    ∃ rs dbi, txLoop parser tenant (ops.take i) db = .ok (rs, dbi) ∧
      ops.drop i = op :: ops.drop (i + 1) ∧
      opExecTx parser tenant op dbi = .error e := by
  induction ops generalizing db i op e with
  | nil => simp [txLoop] at h
  | cons hd tl ih =>
    rcases hexec : opExecTx parser tenant hd db with e2 | dbx
    · rw [txLoop, hexec] at h
      dsimp only at h
      simp only [Except.error.injEq, Prod.mk.injEq] at h
      obtain ⟨h1, h2, h3⟩ := h
      subst h1; subst h2; subst h3
      exact ⟨[], db, by simp [txLoop], by simp, hexec⟩

    · rw [txLoop, hexec] at h
      dsimp only at h
      rcases hrest : txLoop parser tenant tl dbx with ⟨j, o2, e2⟩ | ⟨rs2, db3⟩ <;>
        rw [hrest] at h <;> dsimp only at h
      · simp only [Except.error.injEq, Prod.mk.injEq] at h
        obtain ⟨h1, h2, h3⟩ := h
        subst h1; subst h2; subst h3
        obtain ⟨rs, dbi, hA, hB, hC⟩ := ih hrest
        refine ⟨NewBulkOperationResult hd none :: rs, dbi, ?_, ?_, hC⟩
        · rw [List.take_succ_cons, txLoop, hexec]
          dsimp only
          rw [hA]
        · simpa using hB
      · simp at h

theorem execSingle_noFail (parser : ObjectParser) (tenant : String)
    (op : BulkOperation) (db : DB) (cnt : Nat) :
    execSingle parser noCommitFailures tenant op db cnt
      = match opExecTx parser tenant op db with
        | .ok db2 => (none, db2, cnt + 1)
        | .error e => (some e, db, cnt) := by
  rcases op with ⟨rt, rid, res, ty⟩
  cases ty
  case createOperation =>
    rcases hp : parser rt res with _ | obj
    · simp [execSingle, Create, opExecTx, hp]
    · rcases htc : txCreate db tenant rt obj with e | db2 <;>
        simp [execSingle, Create, opExecTx, hp, htc, noCommitFailures]
  case updateOperation =>
    rcases hp : parser rt res with _ | obj
    · simp [execSingle, Update, opExecTx, hp]
    · rcases htc : txUpdate db tenant rt rid obj with e | db2 <;>
        simp [execSingle, Update, opExecTx, hp, htc, noCommitFailures]
  case deleteOperation =>
    rcases htc : txDelete db tenant rt rid with e | db2 <;>
      simp [execSingle, Delete, opExecTx, htc, noCommitFailures]

theorem bulk_nil (parser : ObjectParser) (oracle : CommitOracle)
    (tenant : String) (db : DB) (cnt : Nat) :
    Bulk parser oracle false tenant [] db cnt = .ok ([], db, cnt) := by
  rw [Bulk, if_neg Bool.false_ne_true]

theorem bulk_one (parser : ObjectParser) (oracle : CommitOracle)
    (tenant : String) (op : BulkOperation) (db : DB) (cnt : Nat) :
    Bulk parser oracle false tenant [op] db cnt
      = .ok ([NewBulkOperationResult op (execSingle parser oracle tenant op db cnt).1],
          (execSingle parser oracle tenant op db cnt).2.1,
          (execSingle parser oracle tenant op db cnt).2.2) := by
  rw [Bulk, if_neg Bool.false_ne_true]

theorem bulk_large (parser : ObjectParser) (oracle : CommitOracle)
    (tenant : String) (op1 op2 : BulkOperation) (rest : List BulkOperation)
    (db : DB) (cnt : Nat)
    (hsize : TransactionMaxSize < (op1 :: op2 :: rest).length) :
    Bulk parser oracle false tenant (op1 :: op2 :: rest) db cnt
      = match Bulk parser oracle false tenant
            ((op1 :: op2 :: rest).take ((op1 :: op2 :: rest).length / 2)) db cnt with
        | .error msg => .error msg
        | .ok (listA, db2, cnt2) =>
          match Bulk parser oracle false tenant
              ((op1 :: op2 :: rest).drop ((op1 :: op2 :: rest).length / 2)) db2 cnt2 with
          | .error msg => .error msg
          | .ok (listB, db3, cnt3) => .ok (listA ++ listB, db3, cnt3) := by
  rw [Bulk, if_neg Bool.false_ne_true]
  rw [if_pos hsize]

theorem bulk_tx_ok (parser : ObjectParser) (oracle : CommitOracle)
    (tenant : String) (op1 op2 : BulkOperation) (rest : List BulkOperation)
    (db db2 : DB) (cnt : Nat) (rs : List BulkOperationResult)
    (hsize : ¬ TransactionMaxSize < (op1 :: op2 :: rest).length)
    (htx : txLoop parser tenant (op1 :: op2 :: rest) db = .ok (rs, db2)) :
    Bulk parser oracle false tenant (op1 :: op2 :: rest) db cnt
      = if oracle cnt then
          .ok (replayAll parser oracle tenant (op1 :: op2 :: rest) db (cnt + 1))
        else .ok (rs, db2, cnt + 1) := by
  rw [Bulk, if_neg Bool.false_ne_true]
  rw [if_neg hsize]
  split
  · rename_i rs2 db3 heq
    rw [htx] at heq
    simp only [Except.ok.injEq, Prod.mk.injEq] at heq
    rw [heq.1, heq.2]
  · rename_i i op e heq
    rw [htx] at heq
    simp at heq

theorem bulk_tx_err_zero (parser : ObjectParser) (oracle : CommitOracle)
    (tenant : String) (op1 op2 : BulkOperation) (rest : List BulkOperation)
    (db : DB) (cnt : Nat) (op : BulkOperation) (e : BackendError)
    (hsize : ¬ TransactionMaxSize < (op1 :: op2 :: rest).length)
    (htx : txLoop parser tenant (op1 :: op2 :: rest) db = .error (0, op, e)) :
    Bulk parser oracle false tenant (op1 :: op2 :: rest) db cnt
      = match Bulk parser oracle false tenant ((op1 :: op2 :: rest).drop 1) db cnt with
        | .error msg => .error msg
        | .ok (rest2, db2, cnt2) =>
          .ok (NewBulkOperationResult op (some e) :: rest2, db2, cnt2) := by
  rw [Bulk, if_neg Bool.false_ne_true]
  rw [if_neg hsize]
  split
  · rename_i rs2 db3 heq
    rw [htx] at heq
    simp at heq
  · rename_i i op2x e2 heq
    rw [htx] at heq
    simp only [Except.error.injEq, Prod.mk.injEq] at heq
    obtain ⟨h1, h2, h3⟩ := heq
    subst h1; subst h2; subst h3
    simp

theorem bulk_tx_err_pos (parser : ObjectParser) (oracle : CommitOracle)
    (tenant : String) (op1 op2 : BulkOperation) (rest : List BulkOperation)
    (db : DB) (cnt : Nat) (i : Nat) (op : BulkOperation) (e : BackendError)
    (hsize : ¬ TransactionMaxSize < (op1 :: op2 :: rest).length)
    (htx : txLoop parser tenant (op1 :: op2 :: rest) db = .error (i, op, e))
    (hi : i ≠ 0) :
    Bulk parser oracle false tenant (op1 :: op2 :: rest) db cnt
      = match Bulk parser oracle false tenant ((op1 :: op2 :: rest).take i) db cnt with
        | .error msg => .error msg
        | .ok (listA, db2, cnt2) =>
          match Bulk parser oracle false tenant
              (((op1 :: op2 :: rest).drop i).take 1) db2 cnt2 with
          | .error msg => .error msg
          | .ok (listB, db3, cnt3) =>
            match Bulk parser oracle false tenant
                ((op1 :: op2 :: rest).drop (i + 1)) db3 cnt3 with
            | .error msg => .error msg
            | .ok (listC, db4, cnt4) => .ok (listA ++ listB ++ listC, db4, cnt4) := by
  rw [Bulk, if_neg Bool.false_ne_true]
  rw [if_neg hsize]
  split
  · rename_i rs2 db3 heq
    rw [htx] at heq
    simp at heq
  · rename_i j opx ex heq
    rw [htx] at heq
    simp only [Except.error.injEq, Prod.mk.injEq] at heq
    obtain ⟨h1, h2, h3⟩ := heq
    subst h1; subst h2; subst h3
    simp [hi]

theorem txLoop_error_zero_inv {parser : ObjectParser} {tenant : String}
    {hd : BulkOperation} {tl : List BulkOperation} {db : DB}
    {op : BulkOperation} {e : BackendError}
    (h : txLoop parser tenant (hd :: tl) db = .error (0, op, e)) :
    op = hd ∧ opExecTx parser tenant hd db = .error e := by
  rcases hexec : opExecTx parser tenant hd db with e2 | db2
  · rw [txLoop, hexec] at h
    dsimp only at h
    simp only [Except.error.injEq, Prod.mk.injEq] at h
    obtain ⟨-, h2, h3⟩ := h
    exact ⟨h2.symm, by rw [h3]⟩
  · rw [txLoop, hexec] at h
    dsimp only at h
    rcases hrest : txLoop parser tenant tl db2 with ⟨j, o2, e2⟩ | ⟨rs, db3⟩ <;>
      rw [hrest] at h <;> dsimp only at h <;> simp at h

theorem bulk_isOk (parser : ObjectParser) (oracle : CommitOracle) (tenant : String) :
    ∀ (n : Nat) (ops : List BulkOperation) (db : DB) (cnt : Nat), ops.length ≤ n →
      ∃ out, Bulk parser oracle false tenant ops db cnt = .ok out := by
  intro n
  induction n with
  | zero =>
    intro ops db cnt hlen
    have hnil : ops = [] := List.eq_nil_of_length_eq_zero (Nat.le_zero.mp hlen)
    subst hnil
    exact ⟨([], db, cnt), bulk_nil parser oracle tenant db cnt⟩
  | succ n ih =>
    intro ops db cnt hlen
    rcases ops with _ | ⟨op1, ops2⟩
    · exact ⟨([], db, cnt), bulk_nil parser oracle tenant db cnt⟩
    rcases ops2 with _ | ⟨op2, rest⟩
    · exact ⟨_, bulk_one parser oracle tenant op1 db cnt⟩
    by_cases hlarge : TransactionMaxSize < (op1 :: op2 :: rest).length
    · rw [bulk_large parser oracle tenant op1 op2 rest db cnt hlarge]
      obtain ⟨⟨l1, db2, c2⟩, h1⟩ :=
        ih ((op1 :: op2 :: rest).take ((op1 :: op2 :: rest).length / 2)) db cnt (by
          simp only [List.length_take, List.length_cons] at hlen ⊢
          omega)
      rw [h1]
      dsimp only
      obtain ⟨⟨l2, db3, c3⟩, h2⟩ :=
        ih ((op1 :: op2 :: rest).drop ((op1 :: op2 :: rest).length / 2)) db2 c2 (by
          simp only [List.length_drop, List.length_cons] at hlen ⊢
          omega)
      rw [h2]
      exact ⟨_, rfl⟩
    · rcases htx : txLoop parser tenant (op1 :: op2 :: rest) db with ⟨i, op, e⟩ | ⟨rs, db2⟩
      · by_cases hi : i = 0
        · subst hi
          rw [bulk_tx_err_zero parser oracle tenant op1 op2 rest db cnt op e hlarge htx]
          obtain ⟨⟨l1, db2, c2⟩, h1⟩ := ih ((op1 :: op2 :: rest).drop 1) db cnt (by
            simp only [List.length_drop, List.length_cons] at hlen ⊢
            omega)
          rw [h1]
          exact ⟨_, rfl⟩

        · rw [bulk_tx_err_pos parser oracle tenant op1 op2 rest db cnt i op e hlarge htx hi]
          have hilt : i < (op1 :: op2 :: rest).length := txLoop_error_lt htx
          obtain ⟨⟨l1, db2, c2⟩, h1⟩ := ih ((op1 :: op2 :: rest).take i) db cnt (by
            simp only [List.length_take, List.length_cons] at hilt hlen ⊢
            omega)
          rw [h1]
          dsimp only
          obtain ⟨⟨l2, db3, c3⟩, h2⟩ := ih (((op1 :: op2 :: rest).drop i).take 1) db2 c2 (by
            simp only [List.length_take, List.length_drop, List.length_cons] at hlen ⊢
            omega)
          rw [h2]
          dsimp only
          obtain ⟨⟨l3, db4, c4⟩, h3⟩ := ih ((op1 :: op2 :: rest).drop (i + 1)) db3 c3 (by
            simp only [List.length_drop, List.length_cons] at hlen ⊢
            omega)
          rw [h3]
          exact ⟨_, rfl⟩
      · rw [bulk_tx_ok parser oracle tenant op1 op2 rest db db2 cnt rs hlarge htx]
        by_cases hc : oracle cnt
        · rw [if_pos hc]
          exact ⟨_, rfl⟩
        · rw [if_neg hc]
          exact ⟨_, rfl⟩

theorem bulk_seqExec (parser : ObjectParser) (tenant : String) :
    ∀ (n : Nat) (ops : List BulkOperation) (db : DB) (cnt : Nat), ops.length ≤ n →
      ∃ c, Bulk parser noCommitFailures false tenant ops db cnt
        = .ok ((seqExec parser tenant ops db).1, (seqExec parser tenant ops db).2, c) := by
  intro n
  induction n with
  | zero =>
    intro ops db cnt hlen
    have hnil : ops = [] := List.eq_nil_of_length_eq_zero (Nat.le_zero.mp hlen)
    subst hnil
    exact ⟨cnt, by rw [bulk_nil]; simp [seqExec]⟩
  | succ n ih =>
    intro ops db cnt hlen
    rcases ops with _ | ⟨op1, ops2⟩
    · exact ⟨cnt, by rw [bulk_nil]; simp [seqExec]⟩
    rcases ops2 with _ | ⟨op2, rest⟩
    · rcases hexec : opExecTx parser tenant op1 db with e | db2
      · exact ⟨cnt, by rw [bulk_one]; simp [execSingle_noFail, hexec, seqExec]⟩
      · exact ⟨cnt + 1, by rw [bulk_one]; simp [execSingle_noFail, hexec, seqExec]⟩
    by_cases hlarge : TransactionMaxSize < (op1 :: op2 :: rest).length
    · rw [bulk_large parser noCommitFailures tenant op1 op2 rest db cnt hlarge]
      obtain ⟨c1, h1⟩ :=
        ih ((op1 :: op2 :: rest).take ((op1 :: op2 :: rest).length / 2)) db cnt (by
          simp only [List.length_take, List.length_cons] at hlen ⊢
          omega)
      rw [h1]
      dsimp only
      obtain ⟨c2, h2⟩ :=
        ih ((op1 :: op2 :: rest).drop ((op1 :: op2 :: rest).length / 2))
          (seqExec parser tenant
            ((op1 :: op2 :: rest).take ((op1 :: op2 :: rest).length / 2)) db).2 c1 (by
          simp only [List.length_drop, List.length_cons] at hlen ⊢
          omega)
      rw [h2]
      dsimp only
      refine ⟨c2, ?_⟩
      have hsplit := seqExec_append parser tenant
        ((op1 :: op2 :: rest).take ((op1 :: op2 :: rest).length / 2))
        ((op1 :: op2 :: rest).drop ((op1 :: op2 :: rest).length / 2)) db
      rw [List.take_append_drop] at hsplit
      rw [hsplit]
    · rcases htx : txLoop parser tenant (op1 :: op2 :: rest) db with ⟨i, op, e⟩ | ⟨rs, db2⟩
      · by_cases hi : i = 0
        · subst hi
          obtain ⟨hop, hexec⟩ := txLoop_error_zero_inv htx
          rw [bulk_tx_err_zero parser noCommitFailures tenant op1 op2 rest db cnt op e
            hlarge htx]
          obtain ⟨c1, h1⟩ := ih ((op1 :: op2 :: rest).drop 1) db cnt (by
            simp only [List.length_drop, List.length_cons] at hlen ⊢
            omega)
          rw [h1]
          refine ⟨c1, ?_⟩
          simp [seqExec, hexec, hop]
        · obtain ⟨rsA, dbi, hA, hdropEq, hfail⟩ := txLoop_error_decompose htx
          have hilt : i < (op1 :: op2 :: rest).length := txLoop_error_lt htx
          rw [bulk_tx_err_pos parser noCommitFailures tenant op1 op2 rest db cnt i op e
            hlarge htx hi]
          have hseqA : seqExec parser tenant ((op1 :: op2 :: rest).take i) db = (rsA, dbi) :=
            txLoop_ok_seqExec hA
          obtain ⟨c1, h1⟩ := ih ((op1 :: op2 :: rest).take i) db cnt (by
            simp only [List.length_take, List.length_cons] at hilt hlen ⊢
            omega)
          rw [hseqA] at h1
          rw [h1]
          dsimp only
          have hmid : ((op1 :: op2 :: rest).drop i).take 1 = [op] := by
            rw [hdropEq]
            simp
          rw [hmid]
          have hmidBulk : Bulk parser noCommitFailures false tenant [op] dbi c1
              = .ok ([NewBulkOperationResult op (some e)], dbi, c1) := by
            rw [bulk_one]
            simp [execSingle_noFail, hfail]
          rw [hmidBulk]
          dsimp only
          obtain ⟨c3, h3⟩ := ih ((op1 :: op2 :: rest).drop (i + 1)) dbi c1 (by
            simp only [List.length_drop, List.length_cons] at hlen ⊢
            omega)
          rw [h3]
          dsimp only
          refine ⟨c3, ?_⟩
          have hfull : seqExec parser tenant (op1 :: op2 :: rest) db
              = (rsA ++ NewBulkOperationResult op (some e)
                    :: (seqExec parser tenant ((op1 :: op2 :: rest).drop (i + 1)) dbi).1,
                 (seqExec parser tenant ((op1 :: op2 :: rest).drop (i + 1)) dbi).2) := by
            conv_lhs => rw [← List.take_append_drop i (op1 :: op2 :: rest)]
            rw [seqExec_append, hseqA, hdropEq]
            simp [seqExec, hfail]
          rw [hfull]
          simp
      · rw [bulk_tx_ok parser noCommitFailures tenant op1 op2 rest db db2 cnt rs hlarge htx]
        rw [if_neg (by simp [noCommitFailures])]
        rw [txLoop_ok_seqExec htx]
        exact ⟨cnt + 1, rfl⟩

/-! ## Helper lemmas for the simpler components -/

theorem appendUniqueLoop_mem {T U : Type} [DecidableEq U] (getId : T → U) :
    ∀ (l : List T) (ids : List U) (x : T),
      x ∈ appendUniqueLoop getId l ids → x ∈ l := by
  intro l
  induction l with
  | nil => intro ids x hx; simp [appendUniqueLoop] at hx
  | cons hd tl ih =>
    intro ids x hx
    rw [appendUniqueLoop] at hx
    by_cases hmem : getId hd ∈ ids
    · rw [if_pos hmem] at hx
      exact List.mem_cons_of_mem hd (ih ids x hx)
    · rw [if_neg hmem] at hx
      rcases List.mem_cons.mp hx with hx | hx
      · simp [hx]
      · exact List.mem_cons_of_mem hd (ih _ x hx)

theorem appendUniqueLoop_not_seen {T U : Type} [DecidableEq U] (getId : T → U) :
    ∀ (l : List T) (ids : List U) (x : T),
      x ∈ appendUniqueLoop getId l ids → getId x ∉ ids := by
  intro l
  induction l with
  | nil => intro ids x hx; simp [appendUniqueLoop] at hx
  | cons hd tl ih =>
    intro ids x hx
    rw [appendUniqueLoop] at hx
    by_cases hmem : getId hd ∈ ids
    · rw [if_pos hmem] at hx
      exact ih ids x hx
    · rw [if_neg hmem] at hx
      rcases List.mem_cons.mp hx with hx | hx
      · subst hx; exact hmem
      · have := ih _ x hx
        intro hc
        exact this (List.mem_cons_of_mem _ hc)

/-- The seen-id set after the loop has processed a list. -/
def seenAfterLoop {T U : Type} [DecidableEq U] (getId : T → U) :
    List T → List U → List U
  | [], ids => ids
  | obj :: rest, ids =>
    if getId obj ∈ ids then seenAfterLoop getId rest ids
    else seenAfterLoop getId rest (getId obj :: ids)

theorem appendUniqueLoop_append {T U : Type} [DecidableEq U] (getId : T → U) :
    ∀ (l1 l2 : List T) (ids : List U),
      appendUniqueLoop getId (l1 ++ l2) ids
        = appendUniqueLoop getId l1 ids
            ++ appendUniqueLoop getId l2 (seenAfterLoop getId l1 ids) := by
  intro l1
  induction l1 with
  | nil => intro l2 ids; simp [appendUniqueLoop, seenAfterLoop]
  | cons hd tl ih =>
    intro l2 ids
    by_cases hmem : getId hd ∈ ids <;>
      simp [appendUniqueLoop, seenAfterLoop, hmem, ih]

theorem mem_seenAfterLoop_of_mem_ids {T U : Type} [DecidableEq U] (getId : T → U) :
    ∀ (l : List T) (ids : List U) (u : U),
      u ∈ ids → u ∈ seenAfterLoop getId l ids := by
  intro l
  induction l with
  | nil => intro ids u hu; simpa [seenAfterLoop] using hu
  | cons hd tl ih =>
    intro ids u hu
    rw [seenAfterLoop]
    by_cases hmem : getId hd ∈ ids
    · rw [if_pos hmem]; exact ih ids u hu
    · rw [if_neg hmem]; exact ih _ u (List.mem_cons_of_mem _ hu)

theorem mem_seenAfterLoop_of_mem {T U : Type} [DecidableEq U] (getId : T → U) :
    ∀ (l : List T) (ids : List U) (x : T),
      x ∈ l → getId x ∈ seenAfterLoop getId l ids := by
  intro l
  induction l with
  | nil => intro ids x hx; simp at hx
  | cons hd tl ih =>
    intro ids x hx
    rw [seenAfterLoop]
    rcases List.mem_cons.mp hx with hx | hx
    · subst hx
      by_cases hmem : getId x ∈ ids
      · rw [if_pos hmem]; exact mem_seenAfterLoop_of_mem_ids getId tl ids _ hmem
      · rw [if_neg hmem]
        exact mem_seenAfterLoop_of_mem_ids getId tl _ _ (List.mem_cons_self _ _)
    · by_cases hmem : getId hd ∈ ids
      · rw [if_pos hmem]; exact ih ids x hx
      · rw [if_neg hmem]; exact ih _ x hx

theorem mem_map_appendUniqueLoop {T U : Type} [DecidableEq U] (getId : T → U) :
    ∀ (l : List T) (ids : List U) (x : T),
      x ∈ l → getId x ∉ ids → getId x ∈ (appendUniqueLoop getId l ids).map getId := by
  intro l
  induction l with
  | nil => intro ids x hx; simp at hx
  | cons hd tl ih =>
    intro ids x hx hnot
    rw [appendUniqueLoop]
    by_cases hmem : getId hd ∈ ids
    · rw [if_pos hmem]
      rcases List.mem_cons.mp hx with hx | hx
      · subst hx; exact absurd hmem hnot
      · exact ih ids x hx hnot
    · rw [if_neg hmem]
      rcases List.mem_cons.mp hx with hx | hx
      · subst hx; simp
      · by_cases heq : getId x = getId hd
        · simp [heq]
        · have := ih (getId hd :: ids) x hx (by
            intro hc
            rcases List.mem_cons.mp hc with hc | hc
            · exact heq hc
            · exact hnot hc)
          simp only [List.map_cons, List.mem_cons]
          exact Or.inr this

theorem mem_map_appendUnique {T U : Type} [DecidableEq U] (getId : T → U)
    (l1 l2 : List T) (x : T) (hx : x ∈ l1 ++ l2) :
    getId x ∈ (appendUnique l1 l2 getId).map getId := by
  exact mem_map_appendUniqueLoop getId (l1 ++ l2) [] x hx (by simp)

theorem removeIdsFromMap_mem {T U : Type} [DecidableEq U] (getId : T → U) :
    ∀ (objs : List T) (m : List U) (u : U),
      u ∈ removeIdsFromMap m objs getId ↔ u ∈ m ∧ u ∉ objs.map getId := by
  intro objs
  induction objs with
  | nil => intro m u; simp [removeIdsFromMap]
  | cons hd tl ih =>
    intro m u
    have : removeIdsFromMap m (hd :: tl) getId
        = removeIdsFromMap (m.filter fun k => k ≠ getId hd) tl getId := rfl
    rw [this, ih]
    simp only [List.mem_filter, decide_eq_true_eq, List.map_cons, List.mem_cons, not_or, ne_eq]
    tauto

theorem dedupFirstById_eq_loop {T U : Type} [DecidableEq U] (getId : T → U) :
    ∀ (l : List T) (ids : List U),
      appendUniqueLoop getId l ids
        = dedupFirstById getId (l.filter fun y => getId y ∉ ids) := by
  intro l
  induction l with
  | nil => intro ids; simp [appendUniqueLoop, dedupFirstById]
  | cons hd tl ih =>
    intro ids
    by_cases hmem : getId hd ∈ ids
    · rw [appendUniqueLoop, if_pos hmem]
      rw [List.filter_cons_of_neg (by simpa using hmem)]
      exact ih ids
    · rw [appendUniqueLoop, if_neg hmem]
      rw [List.filter_cons_of_pos (by simpa using hmem)]
      have hfil : (tl.filter fun y => getId y ∉ getId hd :: ids)
          = ((tl.filter fun y => getId y ∉ ids).filter fun y => getId y ≠ getId hd) := by
        rw [List.filter_filter]
        apply List.filter_congr
        intro y hy
        by_cases h1 : getId y = getId hd <;> by_cases h2 : getId y ∈ ids <;>
          simp [h1, h2]
      rw [dedupFirstById, ih (getId hd :: ids), hfil]

theorem fold_after_eq_foldl_max (l : List Nat) (b : Nat) :
    l.foldl (fun acc t => if timeAfter t acc then t else acc) b = l.foldl max b := by
  induction l generalizing b with
  | nil => rfl
  | cons hd tl ih =>
    have hstep : (if timeAfter hd b then hd else b) = max b hd := by
      simp only [timeAfter]
      by_cases hlt : b < hd
      · simp [hlt, Nat.max_eq_right (Nat.le_of_lt hlt)]
      · simp [hlt, Nat.max_eq_left (Nat.le_of_not_lt hlt)]
    simp only [List.foldl_cons, hstep, ih]

theorem le_foldl_max (l : List Nat) (b : Nat) : b ≤ l.foldl max b := by
  induction l generalizing b with
  | nil => exact Nat.le_refl b
  | cons hd tl ih => exact Nat.le_trans (Nat.le_max_left b hd) (ih (max b hd))

theorem mem_le_foldl_max (l : List Nat) (b : Nat) :
    ∀ c ∈ l, c ≤ l.foldl max b := by
  induction l generalizing b with
  | nil => intro c hc; simp at hc
  | cons hd tl ih =>
    intro c hc
    rcases List.mem_cons.mp hc with hc | hc
    · subst hc
      exact Nat.le_trans (Nat.le_max_right b _) (le_foldl_max tl _)
    · exact ih (max b hd) c hc

theorem foldl_max_cases (l : List Nat) (b : Nat) :
    l.foldl max b = b ∨ l.foldl max b ∈ l := by
  induction l generalizing b with
  | nil => exact Or.inl rfl
  | cons hd tl ih =>
    rcases ih (max b hd) with h | h
    · simp only [List.foldl_cons]
      rcases le_or_lt hd b with hle | hlt
      · rw [h, Nat.max_eq_left hle]
        exact Or.inl rfl
      · rw [h, Nat.max_eq_right (Nat.le_of_lt hlt)]
        exact Or.inr (List.mem_cons_self _ _)
    · exact Or.inr (List.mem_cons_of_mem _ h)

theorem timeForFullImport_iff (now : Int) (config : RunnerSchedule)
    (h : ImportTimes) :
    timeForFullImport now config h = true ↔
      (now - h.lastCompletedFull > config.fullImportFrequency ∧
        (h.lastCompletedFull ≥ h.lastStartedFull ∨
          now - h.lastStartedFull ≥ config.fullImportRetryWait)) := by
  unfold timeForFullImport
  split
  · rename_i hcond
    simp only [Bool.false_eq_true, false_iff]
    omega
  · rename_i hcond
    simp only [decide_eq_true_eq]
    omega

theorem timeForIncrementalImport_iff (now : Int) (config : RunnerSchedule)
    (h : ImportTimes) :
    timeForIncrementalImport now config h = true ↔
      (timeForFullImport now config h = false ∧
        (now - h.lastCompletedIncremental > config.incrementalImportFrequency ∧
          (h.lastCompletedIncremental ≥ h.lastStartedIncremental ∨
            now - h.lastStartedIncremental ≥ config.incrementalImportRetryWait))) := by
  unfold timeForIncrementalImport
  cases hf : timeForFullImport now config h
  · simp only [hf, Bool.false_eq_true, if_false]
    split
    · rename_i hcond
      simp only [Bool.false_eq_true, false_iff]
      omega
    · rename_i hcond
      simp only [decide_eq_true_eq, true_and]
      omega
  · simp [hf]

/-- A default result, used only as the `List.getD` fallback. -/
def defaultBulkResult : BulkOperationResult := ⟨"", "", .createOperation, none⟩

theorem seqExec_length (parser : ObjectParser) (tenant : String) :
    ∀ (ops : List BulkOperation) (db : DB),
      (seqExec parser tenant ops db).1.length = ops.length := by
  intro ops
  induction ops with
  | nil => intro db; rfl
  | cons hd tl ih =>
    intro db
    rcases hexec : opExecTx parser tenant hd db with e | db2 <;>
      simp [seqExec, hexec, ih]

theorem seqExec_shape (parser : ObjectParser) (tenant : String) :
    ∀ (ops : List BulkOperation) (db : DB),
      (seqExec parser tenant ops db).1.map
          (fun res => (res.resourceType, res.resourceID, res.type))
        = ops.map (fun op => (op.resourceType, op.resourceID, op.type)) := by
  intro ops
  induction ops with
  | nil => intro db; rfl
  | cons hd tl ih =>
    intro db
    rcases hexec : opExecTx parser tenant hd db with e | db2 <;>
      simp [seqExec, hexec, NewBulkOperationResult, ih]

theorem seqExec_eraseIdx (parser : ObjectParser) (tenant : String) :
    ∀ (ops : List BulkOperation) (db : DB) (j : Nat),
      (j < ops.length →
        ((seqExec parser tenant ops db).1.getD j defaultBulkResult).error.isSome) →
      (seqExec parser tenant ops db).2
        = (seqExec parser tenant (ops.eraseIdx j) db).2 := by
  intro ops
  induction ops with
  | nil => intro db j hj; simp [seqExec]
  | cons hd tl ih =>
    intro db j hj
    rcases j with _ | k
    · have hf := hj (by simp)
      rcases hexec : opExecTx parser tenant hd db with e | db2
      · simp [seqExec, hexec, List.eraseIdx_cons_zero]
      · exfalso
        simp [seqExec, hexec, NewBulkOperationResult] at hf
    · have hstep : (hd :: tl).eraseIdx (k + 1) = hd :: tl.eraseIdx k := rfl
      rw [hstep]
      rcases hexec : opExecTx parser tenant hd db with e | db2
      · have hrec := ih db k (fun hk => by
          have := hj (by simpa using Nat.succ_lt_succ hk)
          simpa [seqExec, hexec, List.getD_cons_succ] using this)
        simp [seqExec, hexec, hrec]
      · have hrec := ih db2 k (fun hk => by
          have := hj (by simpa using Nat.succ_lt_succ hk)
          simpa [seqExec, hexec, List.getD_cons_succ] using this)
        simp [seqExec, hexec, hrec]

theorem replayAll_shape (parser : ObjectParser) (oracle : CommitOracle)
    (tenant : String) :
    ∀ (ops : List BulkOperation) (db : DB) (cnt : Nat),
      (replayAll parser oracle tenant ops db cnt).1.map
          (fun res => (res.resourceType, res.resourceID, res.type))
        = ops.map (fun op => (op.resourceType, op.resourceID, op.type)) := by
  intro ops
  induction ops with
  | nil => intro db cnt; rfl
  | cons hd tl ih =>
    intro db cnt
    simp [replayAll, NewBulkOperationResult, ih]

/-! ## The claims -/

/-- Claim C1: for a batch of 2..TransactionMaxSize operations executed in
one shared transaction (no cancellation), if the operation at position `i`
is the first to fail (that is what `txLoop ... = .error (i, op, e)` says)
then: when `i = 0` the executor records that operation's failure and
recursively processes `operations[1:]`; when `i > 0` it rolls back the
transaction (both recursive calls restart from the pre-transaction state
`db`) and processes the three sub-batches `operations[0:i]`,
`operations[i:i+1]` and `operations[i+1:]` independently, returning their
results concatenated in that order. -/
theorem bulk_adaptive_split_on_first_failure
    (parser : ObjectParser) (oracle : CommitOracle) (tenant : String)
    (op1 op2 : BulkOperation) (rest : List BulkOperation) (db : DB) (cnt : Nat)
    (i : Nat) (op : BulkOperation) (e : BackendError)
    (hsize : (op1 :: op2 :: rest).length ≤ TransactionMaxSize)
    (hfail : txLoop parser tenant (op1 :: op2 :: rest) db = .error (i, op, e)) :
    (i = 0 →
      ∃ restResults db2 cnt2,
        Bulk parser oracle false tenant ((op1 :: op2 :: rest).drop 1) db cnt
          = .ok (restResults, db2, cnt2) ∧
        Bulk parser oracle false tenant (op1 :: op2 :: rest) db cnt
          = .ok (NewBulkOperationResult op (some e) :: restResults, db2, cnt2)) ∧
    (i ≠ 0 →
      ∃ listA dbA cntA listB dbB cntB listC dbC cntC,
        Bulk parser oracle false tenant ((op1 :: op2 :: rest).take i) db cnt
          = .ok (listA, dbA, cntA) ∧
        Bulk parser oracle false tenant (((op1 :: op2 :: rest).drop i).take 1) dbA cntA
          = .ok (listB, dbB, cntB) ∧
        Bulk parser oracle false tenant ((op1 :: op2 :: rest).drop (i + 1)) dbB cntB
          = .ok (listC, dbC, cntC) ∧
        Bulk parser oracle false tenant (op1 :: op2 :: rest) db cnt
          = .ok (listA ++ listB ++ listC, dbC, cntC)) := by
  have hnotlarge : ¬ TransactionMaxSize < (op1 :: op2 :: rest).length := by omega
  constructor
  · intro hi
    subst hi
    obtain ⟨⟨l1, db2, c2⟩, h1⟩ := bulk_isOk parser oracle tenant
      ((op1 :: op2 :: rest).drop 1).length ((op1 :: op2 :: rest).drop 1) db cnt le_rfl
    refine ⟨l1, db2, c2, h1, ?_⟩
    rw [bulk_tx_err_zero parser oracle tenant op1 op2 rest db cnt op e hnotlarge hfail]
    rw [h1]
  · intro hi
    obtain ⟨⟨lA, dbA, cA⟩, hA⟩ := bulk_isOk parser oracle tenant
      ((op1 :: op2 :: rest).take i).length ((op1 :: op2 :: rest).take i) db cnt le_rfl
    obtain ⟨⟨lB, dbB, cB⟩, hB⟩ := bulk_isOk parser oracle tenant
      (((op1 :: op2 :: rest).drop i).take 1).length
      (((op1 :: op2 :: rest).drop i).take 1) dbA cA le_rfl
    obtain ⟨⟨lC, dbC, cC⟩, hC⟩ := bulk_isOk parser oracle tenant
      ((op1 :: op2 :: rest).drop (i + 1)).length
      ((op1 :: op2 :: rest).drop (i + 1)) dbB cB le_rfl
    refine ⟨lA, dbA, cA, lB, dbB, cB, lC, dbC, cC, hA, hB, hC, ?_⟩
    rw [bulk_tx_err_pos parser oracle tenant op1 op2 rest db cnt i op e hnotlarge hfail hi]
    rw [hA]
    dsimp only
    rw [hB]
    dsimp only
    rw [hC]

/-- Claim C2: with no cancellation and no commit failures, `Bulk` completes
without an infrastructure error and returns exactly the results of the
sequential reference semantics: one result per input operation, in input
order.  If exactly the operation at position `j` of that run fails, every
result except position `j` carries no error and the final database state is
the state reached by running the batch without the failing operation (the
other N-1 operations take effect). -/
theorem bulk_results_in_order_and_isolation
    (parser : ObjectParser) (tenant : String) (ops : List BulkOperation)
    (db : DB) (cnt : Nat) (j : Nat)
    (hfail : ∀ k, k < (seqExec parser tenant ops db).1.length →
      (((seqExec parser tenant ops db).1.getD k defaultBulkResult).error = none ↔ k ≠ j)) :
    ∃ c, Bulk parser noCommitFailures false tenant ops db cnt
        = .ok ((seqExec parser tenant ops db).1, (seqExec parser tenant ops db).2, c) ∧
      (seqExec parser tenant ops db).1.length = ops.length ∧
      (seqExec parser tenant ops db).1.map
          (fun res => (res.resourceType, res.resourceID, res.type))
        = ops.map (fun op => (op.resourceType, op.resourceID, op.type)) ∧
      (seqExec parser tenant ops db).2
        = (seqExec parser tenant (ops.eraseIdx j) db).2 := by
  obtain ⟨c, hc⟩ := bulk_seqExec parser tenant ops.length ops db cnt le_rfl
  refine ⟨c, hc, seqExec_length parser tenant ops db,
    seqExec_shape parser tenant ops db, ?_⟩
  apply seqExec_eraseIdx
  intro hjlen
  have hjlen2 : j < (seqExec parser tenant ops db).1.length := by
    rw [seqExec_length parser tenant ops db]
    exact hjlen
  have := (hfail j hjlen2).not.mpr (by simp)
  rcases hopt : ((seqExec parser tenant ops db).1.getD j defaultBulkResult).error with _ | e
  · exact absurd hopt this
  · simp [hopt]

/-- Claim C3: at wall time `now` the import runner chooses a full import iff
`now - fullCompletedAt > fullFrequency` and (`fullCompletedAt ≥
fullStartedAt` or `now - fullStartedAt ≥ fullRetryWait`); it chooses an
incremental import iff a full import is not chosen and the analogous
condition over the incremental timestamps holds; otherwise it does
nothing. -/
theorem importTick_schedule_decision (now : Int) (config : RunnerSchedule)
    (h : ImportTimes) :
    (importTickChoice now config h = .full ↔
      (now - h.lastCompletedFull > config.fullImportFrequency ∧
        (h.lastCompletedFull ≥ h.lastStartedFull ∨
          now - h.lastStartedFull ≥ config.fullImportRetryWait))) ∧
    (importTickChoice now config h = .incremental ↔
      (¬(now - h.lastCompletedFull > config.fullImportFrequency ∧
          (h.lastCompletedFull ≥ h.lastStartedFull ∨
            now - h.lastStartedFull ≥ config.fullImportRetryWait)) ∧
        (now - h.lastCompletedIncremental > config.incrementalImportFrequency ∧
          (h.lastCompletedIncremental ≥ h.lastStartedIncremental ∨
            now - h.lastStartedIncremental ≥ config.incrementalImportRetryWait)))) := by
  have hfull := timeForFullImport_iff now config h
  have hinc := timeForIncrementalImport_iff now config h
  unfold importTickChoice
  by_cases hf : timeForFullImport now config h = true
  · rw [if_pos hf]
    refine ⟨⟨fun _ => hfull.mp hf, fun _ => rfl⟩, ?_, ?_⟩
    · intro hc
      exact absurd hc (by decide)
    · rintro ⟨hnot, -⟩
      exact absurd (hfull.mp hf) hnot
  · rw [if_neg hf]
    have hffalse : timeForFullImport now config h = false := by
      cases hval : timeForFullImport now config h
      · rfl
      · exact absurd hval hf
    have hnotcond : ¬(now - h.lastCompletedFull > config.fullImportFrequency ∧
        (h.lastCompletedFull ≥ h.lastStartedFull ∨
          now - h.lastStartedFull ≥ config.fullImportRetryWait)) := by
      intro hc
      exact hf (hfull.mpr hc)
    by_cases hi : timeForIncrementalImport now config h = true
    · rw [if_pos hi]
      refine ⟨⟨fun hc => absurd hc (by decide), fun hc => absurd (hfull.mpr hc) hf⟩,
        fun _ => ⟨hnotcond, (hinc.mp hi).2⟩, fun _ => rfl⟩
    · rw [if_neg hi]
      refine ⟨⟨fun hc => absurd hc (by decide), fun hc => absurd (hfull.mpr hc) hf⟩,
        fun hc => absurd hc (by decide), ?_⟩
      rintro ⟨-, hcond⟩
      exact absurd (hinc.mpr ⟨hffalse, hcond⟩) hi

/-- Claim C4: for every tenant and recognised entity type, Create of an id
that already exists returns a Conflict error, Update or Delete of an absent
id returns a MissingResource error, and in each of these cases the state is
returned unchanged (the transaction rolls back, fail closed). -/
theorem single_op_conflict_missing_fail_closed
    (parser : ObjectParser) (oracle : CommitOracle) (tenant : String)
    (resourceType table resourceID resource : String) (obj : ParsedObject)
    (db : DB) (cnt : Nat) (htable : mainTable resourceType = some table) :
    (parser resourceType resource = some obj →
      lookupRow db tenant table obj.id ≠ none →
      Create parser oracle tenant resourceType resource db cnt
        = (some (.scim .conflictError ("object " ++ obj.id ++ " already exists")),
           db, cnt)) ∧
    (parser resourceType resource = some obj →
      lookupRow db tenant table resourceID = none →
      Update parser oracle tenant resourceType resourceID resource db cnt
        = (some (.scim .missingResourceError ("couldn't find object " ++ resourceID)),
           db, cnt)) ∧
    (lookupRow db tenant table resourceID = none →
      Delete oracle tenant resourceType resourceID db cnt
        = (some (.scim .missingResourceError ("couldn't find object " ++ resourceID)),
           db, cnt)) := by
  refine ⟨?_, ?_, ?_⟩
  · intro hp hexists
    rcases hlook : lookupRow db tenant table obj.id with _ | o
    · exact absurd hlook hexists
    · simp [Create, hp, txCreate, htable, ensureDoesntHaveRecord, ensureHasRecord, hlook]
  · intro hp hmiss
    simp [Update, hp, txUpdate, htable, ensureHasRecord, hmiss]
  · intro hmiss
    simp [Delete, txDelete, htable, ensureHasRecord, hmiss]

/-- The v2→v1 conversion used by the C5 witnesses: an object without its
required attribute (second component empty, as a person without a principal
name or a duty without a person reference) has no v1 representation and is
silently skipped. -/
def wToV1 : Nat × String → Option String :=
  fun p => if p.2 = "" then none else some p.2

/-- Claim C5, counterexample: an object reported by the remote both as
deleted and as modified in the same tick whose v2→v1 conversion fails (here
a person-like object without its principal name) is removed from the
deleted-entities set (it is not deleted) but the upsert list fed to
`Replace*` is empty — the object is NOT upserted, contrary to the claim. -/
theorem incremental_upsert_counterexample :
    ((1 : Nat), "") ∈ ([((1 : Nat), "")] : List (Nat × String)) ∧
    (1 : Nat) ∈ ([1] : List Nat) ∧
    (incrementalReconcileType [1] ([] : List (Nat × String)) [((1 : Nat), "")]
        Prod.fst wToV1).deletes = ([] : List Nat) ∧
    (incrementalReconcileType [1] ([] : List (Nat × String)) [((1 : Nat), "")]
        Prod.fst wToV1).upserts = ([] : List String) := by
  decide

/-- Claim C5 (amended): every id returned by the created-after or
modified-after fetch for a query type is removed from that query type's
deleted-entities set before the delete phase runs, so an object reported
both as deleted and as created/modified in the same tick is not deleted;
and the retained copy of that id in the de-duplicated union is upserted
provided its v2→v1 conversion succeeds (objects without a v1
representation are silently skipped: neither upserted nor deleted). -/
theorem incremental_delete_precedence_amended {T U V : Type} [DecidableEq U]
    (deletedSet : List U) (createdAfter modifiedAfter : List T)
    (getId : T → U) (toV1 : T → Option V) (x : T)
    (hx : x ∈ createdAfter ∨ x ∈ modifiedAfter) :
    getId x ∉ (incrementalReconcileType deletedSet createdAfter modifiedAfter
        getId toV1).deletes ∧
    ∃ y, y ∈ appendUnique createdAfter modifiedAfter getId ∧
      getId y = getId x ∧
      ∀ v, toV1 y = some v →
        v ∈ (incrementalReconcileType deletedSet createdAfter modifiedAfter
              getId toV1).upserts := by
  have hmem : x ∈ createdAfter ++ modifiedAfter := by
    rcases hx with hx | hx
    · exact List.mem_append_left _ hx
    · exact List.mem_append_right _ hx
  have hup : getId x ∈ (appendUnique createdAfter modifiedAfter getId).map getId :=
    mem_map_appendUnique getId _ _ x hmem
  obtain ⟨y, hy, hyid⟩ := List.mem_map.mp hup
  refine ⟨?_, y, hy, hyid, ?_⟩
  · intro hc
    have hmem2 := (removeIdsFromMap_mem getId _ deletedSet (getId x)).mp hc
    exact hmem2.2 hup
  · intro v hv
    exact List.mem_filterMap.mpr ⟨y, hy, hv⟩

/-- Claim C6, counterexample: with a previously recorded watermark of 100,
a subsequent import over objects with created timestamps {50} and modified
timestamps {60} leaves the watermarks at 100 — not at max{cᵢ} = 50 and
max{mᵢ} = 60 as the claim states. -/
theorem recordMostRecent_counterexample :
    GetMostRecentlyCreated
      (RecordMostRecent (RecordMostRecent ⟨[], []⟩ [100] [100] "Groups")
        [50] [60] "Groups") "Groups" = 100 ∧
    GetMostRecentlyModified
      (RecordMostRecent (RecordMostRecent ⟨[], []⟩ [100] [100] "Groups")
        [50] [60] "Groups") "Groups" = 100 ∧
    (100 : Nat) ≠ 50 ∧ (100 : Nat) ≠ 60 := by
  decide

/-- Claim C6 (amended): after a successful import records its timestamps,
the stored mostRecentCreated watermark equals the maximum of the previously
stored watermark (zero time if never set) and the created timestamps
{c₁…cₙ}, and likewise mostRecentModified for the modified timestamps: the
fold is bounded below by the old watermark and by every input, and is
either the old watermark or one of the inputs. -/
theorem recordMostRecent_advance_only (h : ImportHistoryState)
    (created modified : List Nat) (queryType : String) :
    (GetMostRecentlyCreated (RecordMostRecent h created modified queryType) queryType
        = created.foldl max (GetMostRecentlyCreated h queryType) ∧
      GetMostRecentlyCreated h queryType
        ≤ created.foldl max (GetMostRecentlyCreated h queryType) ∧
      (∀ c ∈ created, c ≤ created.foldl max (GetMostRecentlyCreated h queryType)) ∧
      (created.foldl max (GetMostRecentlyCreated h queryType)
          = GetMostRecentlyCreated h queryType ∨
        created.foldl max (GetMostRecentlyCreated h queryType) ∈ created)) ∧
    (GetMostRecentlyModified (RecordMostRecent h created modified queryType) queryType
        = modified.foldl max (GetMostRecentlyModified h queryType) ∧
      GetMostRecentlyModified h queryType
        ≤ modified.foldl max (GetMostRecentlyModified h queryType) ∧
      (∀ m ∈ modified, m ≤ modified.foldl max (GetMostRecentlyModified h queryType)) ∧
      (modified.foldl max (GetMostRecentlyModified h queryType)
          = GetMostRecentlyModified h queryType ∨
        modified.foldl max (GetMostRecentlyModified h queryType) ∈ modified)) := by
  have hlook : ∀ (m : List (String × Nat)) (v : Nat),
      lookupWatermark ((queryType, v) :: m) queryType = some v := by
    intro m v
    simp [lookupWatermark]
  constructor
  · refine ⟨?_, le_foldl_max _ _, mem_le_foldl_max _ _, foldl_max_cases _ _⟩
    simp only [GetMostRecentlyCreated, RecordMostRecent, hlook, Option.getD_some]
    exact fold_after_eq_foldl_max _ _
  · refine ⟨?_, le_foldl_max _ _, mem_le_foldl_max _ _, foldl_max_cases _ _⟩
    simp only [GetMostRecentlyModified, RecordMostRecent, hlook, Option.getD_some]
    exact fold_after_eq_foldl_max _ _

/-- Claim C7: if every operation of a shared-transaction batch succeeds
individually (`txLoop` returns ok) but the final commit fails, `Bulk`
replays the whole batch one operation per transaction starting from the
rolled-back state and returns the per-operation results of that replay, in
input order, without reporting an overall error. -/
theorem bulk_commit_failure_replays
    (parser : ObjectParser) (oracle : CommitOracle) (tenant : String)
    (op1 op2 : BulkOperation) (rest : List BulkOperation) (db db2 : DB)
    (cnt : Nat) (rs : List BulkOperationResult)
    (hsize : (op1 :: op2 :: rest).length ≤ TransactionMaxSize)
    (hok : txLoop parser tenant (op1 :: op2 :: rest) db = .ok (rs, db2))
    (hcommit : oracle cnt = true) :
    Bulk parser oracle false tenant (op1 :: op2 :: rest) db cnt
      = .ok (replayAll parser oracle tenant (op1 :: op2 :: rest) db (cnt + 1)) ∧
    (replayAll parser oracle tenant (op1 :: op2 :: rest) db (cnt + 1)).1.map
        (fun res => (res.resourceType, res.resourceID, res.type))
      = (op1 :: op2 :: rest).map
          (fun op => (op.resourceType, op.resourceID, op.type)) := by
  constructor
  · rw [bulk_tx_ok parser oracle tenant op1 op2 rest db db2 cnt rs (by omega) hok]
    rw [if_pos hcommit]
  · exact replayAll_shape parser oracle tenant (op1 :: op2 :: rest) db (cnt + 1)

/-- Claim C8: MultiValidator applies its validators in slice order and
returns the error of the first validator that fails; in particular, the
pipeline [UUID, SchoolUnitCode] rejects every SchoolUnit whose id does not
match the UUID pattern with the UUID validator's error, regardless of its
schoolUnitCode. -/
theorem multiValidator_first_failure :
    (∀ (validators : List Validator) (obj : SS12000Object),
      MultiValidator validators obj = validators.findSome? (fun v => v obj)) ∧
    (∀ su : SchoolUnit, matchesUUID su.externalID = false →
      MultiValidator [UUIDValidator, SchoolUnitCodeValidator] (.schoolUnit su)
        = some ("invalid UUID: " ++ su.externalID)) := by
  constructor
  · intro validators obj
    induction validators with
    | nil => rfl
    | cons v rest ih =>
      rw [MultiValidator, List.findSome?_cons]
      cases v obj <;> simp [ih]
  · intro su h
    simp [MultiValidator, UUIDValidator, SS12000Object.GetID, h]

/-- Claim C9: Activity JSON parsing accepts both the legacy singular
`group` field and the plural `groups` field; the parsed Activity always
holds its groups in the plural field, and a body whose singular `group` is
`g` parses to the same Activity as the same body with `groups = [g]` (and
no singular field). -/
theorem activity_group_normalisation :
    ∀ (ajson : ActivityJSON) (g : SCIMReference),
      (activityFromJSON { ajson with group := some g }).groups = [g] ∧
      activityFromJSON { ajson with group := some g }
        = activityFromJSON { ajson with group := none, groups := [g] } := by
  intro ajson g
  exact ⟨rfl, rfl⟩

/-- Claim C10: appendUnique returns the concatenation of the two lists with
later duplicates by id dropped (first occurrence wins, in concatenation
order); hence an object of the result whose id occurs in the first list is
itself from the first list — for an object present in both fetches, the
created-after copy is the one imported. -/
theorem appendUnique_first_occurrence {T U : Type} [DecidableEq U] (getId : T → U) :
    (∀ (list1 list2 : List T),
      appendUnique list1 list2 getId = dedupFirstById getId (list1 ++ list2)) ∧
    (∀ (list1 list2 : List T) (x : T),
      x ∈ appendUnique list1 list2 getId → getId x ∈ list1.map getId →
        x ∈ list1) := by
  constructor
  · intro l1 l2
    have hfil : (l1 ++ l2).filter (fun y => getId y ∉ ([] : List U)) = l1 ++ l2 :=
      List.filter_eq_self.mpr (by simp)
    rw [appendUnique, dedupFirstById_eq_loop, hfil]
  · intro l1 l2 x hx hid
    rw [appendUnique, appendUniqueLoop_append] at hx
    rcases List.mem_append.mp hx with hx | hx
    · exact appendUniqueLoop_mem getId l1 [] x hx
    · exfalso
      obtain ⟨y, hy, hyid⟩ := List.mem_map.mp hid
      have hseen : getId x ∈ seenAfterLoop getId l1 [] := by
        rw [← hyid]
        exact mem_seenAfterLoop_of_mem getId l1 [] y hy
      exact appendUniqueLoop_not_seen getId l2 _ x hx hseen

/-! ## Witnesses: the claim theorems at concrete inputs -/

/-- A concrete parser for the witnesses: the resource body is the id (and
the content); the empty body fails to parse. -/
def witnessParser : ObjectParser := fun _resourceType resource =>
  if resource = "" then none else some ⟨resource, resource⟩

/-- `Create` of user "a". -/
def wopA : BulkOperation := ⟨"Users", "", "a", .createOperation⟩

/-- `Create` of user "b". -/
def wopB : BulkOperation := ⟨"Users", "", "b", .createOperation⟩

/-- An oracle whose first commit attempt fails. -/
def wOracle : CommitOracle := fun k => k == 0

theorem bulk_adaptive_split_on_first_failure_witness :
    txLoop witnessParser "tenant" (wopA :: wopA :: [wopB]) []
      = .error (1, wopA, .scim .conflictError "object a already exists") ∧
    (∃ listA dbA cntA listB dbB cntB listC dbC cntC,
      Bulk witnessParser noCommitFailures false "tenant"
          ((wopA :: wopA :: [wopB]).take 1) [] 0 = .ok (listA, dbA, cntA) ∧
      Bulk witnessParser noCommitFailures false "tenant"
          (((wopA :: wopA :: [wopB]).drop 1).take 1) dbA cntA = .ok (listB, dbB, cntB) ∧
      Bulk witnessParser noCommitFailures false "tenant"
          ((wopA :: wopA :: [wopB]).drop (1 + 1)) dbB cntB = .ok (listC, dbC, cntC) ∧
      Bulk witnessParser noCommitFailures false "tenant"
          (wopA :: wopA :: [wopB]) [] 0 = .ok (listA ++ listB ++ listC, dbC, cntC)) := by
  refine ⟨rfl, ?_⟩
  exact (bulk_adaptive_split_on_first_failure witnessParser noCommitFailures "tenant"
    wopA wopA [wopB] [] 0 1 wopA (.scim .conflictError "object a already exists")
    (by decide) rfl).2 (by decide)

theorem bulk_results_in_order_and_isolation_witness :
    (∀ k, k < (seqExec witnessParser "tenant" (wopA :: wopA :: [wopB]) []).1.length →
      (((seqExec witnessParser "tenant" (wopA :: wopA :: [wopB]) []).1.getD k
          defaultBulkResult).error = none ↔ k ≠ 1)) ∧
    (∃ c, Bulk witnessParser noCommitFailures false "tenant" (wopA :: wopA :: [wopB]) [] 0
        = .ok ((seqExec witnessParser "tenant" (wopA :: wopA :: [wopB]) []).1,
               (seqExec witnessParser "tenant" (wopA :: wopA :: [wopB]) []).2, c) ∧
      (seqExec witnessParser "tenant" (wopA :: wopA :: [wopB]) []).1.length
        = (wopA :: wopA :: [wopB]).length ∧
      (seqExec witnessParser "tenant" (wopA :: wopA :: [wopB]) []).1.map
          (fun res => (res.resourceType, res.resourceID, res.type))
        = (wopA :: wopA :: [wopB]).map
            (fun op => (op.resourceType, op.resourceID, op.type)) ∧
      (seqExec witnessParser "tenant" (wopA :: wopA :: [wopB]) []).2
        = (seqExec witnessParser "tenant" ((wopA :: wopA :: [wopB]).eraseIdx 1) []).2) := by
  refine ⟨by decide, ?_⟩
  exact bulk_results_in_order_and_isolation witnessParser "tenant"
    (wopA :: wopA :: [wopB]) [] 0 1 (by decide)

theorem importTick_schedule_decision_witness :
    importTickChoice 100 ⟨10, 5, 3, 2⟩ ⟨0, 50, 0, 96⟩ = .full ↔
      ((100 : Int) - (⟨0, 50, 0, 96⟩ : ImportTimes).lastCompletedFull
          > (⟨10, 5, 3, 2⟩ : RunnerSchedule).fullImportFrequency ∧
        ((⟨0, 50, 0, 96⟩ : ImportTimes).lastCompletedFull
            ≥ (⟨0, 50, 0, 96⟩ : ImportTimes).lastStartedFull ∨
          (100 : Int) - (⟨0, 50, 0, 96⟩ : ImportTimes).lastStartedFull
            ≥ (⟨10, 5, 3, 2⟩ : RunnerSchedule).fullImportRetryWait)) :=
  (importTick_schedule_decision 100 ⟨10, 5, 3, 2⟩ ⟨0, 50, 0, 96⟩).1

/-- The database for the single-operation witnesses: tenant "t" already has
user "u1". -/
def wDB : DB := [⟨"t", "Users", "u1", ⟨"u1", "u1"⟩⟩]

theorem single_op_conflict_missing_fail_closed_witness :
    mainTable "Users" = some "Users" ∧
    Create witnessParser noCommitFailures "t" "Users" "u1" wDB 0
      = (some (.scim .conflictError ("object " ++ ("u1" : String) ++ " already exists")),
         wDB, 0) ∧
    Update witnessParser noCommitFailures "t" "Users" "u2" "u1" wDB 0
      = (some (.scim .missingResourceError ("couldn't find object " ++ "u2")), wDB, 0) ∧
    Delete noCommitFailures "t" "Users" "u2" wDB 0
      = (some (.scim .missingResourceError ("couldn't find object " ++ "u2")), wDB, 0) := by
  have h := single_op_conflict_missing_fail_closed witnessParser noCommitFailures "t"
    "Users" "Users" "u2" "u1" ⟨"u1", "u1"⟩ wDB 0 (by decide)
  exact ⟨by decide, h.1 (by decide) (by decide), h.2.1 (by decide) (by decide),
    h.2.2 (by decide)⟩

theorem incremental_delete_precedence_amended_witness :
    (1 : Nat) ∉ (incrementalReconcileType [1, 2] [((1 : Nat), "anna")]
        [((1 : Nat), "old"), (3, "z")] Prod.fst wToV1).deletes ∧
    ∃ y, y ∈ appendUnique [((1 : Nat), "anna")] [((1 : Nat), "old"), (3, "z")]
        Prod.fst ∧
      Prod.fst y = (1 : Nat) ∧
      ∀ v, wToV1 y = some v →
        v ∈ (incrementalReconcileType [1, 2] [((1 : Nat), "anna")]
              [((1 : Nat), "old"), (3, "z")] Prod.fst wToV1).upserts :=
  incremental_delete_precedence_amended [1, 2] [((1 : Nat), "anna")]
    [((1 : Nat), "old"), (3, "z")] Prod.fst wToV1 ((1 : Nat), "anna")
    (Or.inl (by decide))

theorem recordMostRecent_advance_only_witness :
    GetMostRecentlyCreated
        (RecordMostRecent ⟨[("x", 3)], [("x", 4)]⟩ [5, 2] [1] "x") "x"
      = [5, 2].foldl max
          (GetMostRecentlyCreated (⟨[("x", 3)], [("x", 4)]⟩ : ImportHistoryState) "x") :=
  (recordMostRecent_advance_only ⟨[("x", 3)], [("x", 4)]⟩ [5, 2] [1] "x").1.1

theorem bulk_commit_failure_replays_witness :
    txLoop witnessParser "tenant" (wopA :: wopB :: []) []
      = .ok ([NewBulkOperationResult wopA none, NewBulkOperationResult wopB none],
          [⟨"tenant", "Users", "a", ⟨"a", "a"⟩⟩, ⟨"tenant", "Users", "b", ⟨"b", "b"⟩⟩]) ∧
    wOracle 0 = true ∧
    Bulk witnessParser wOracle false "tenant" (wopA :: wopB :: []) [] 0
      = .ok (replayAll witnessParser wOracle "tenant" (wopA :: wopB :: []) [] (0 + 1)) ∧
    (replayAll witnessParser wOracle "tenant" (wopA :: wopB :: []) [] (0 + 1)).1.map
        (fun res => (res.resourceType, res.resourceID, res.type))
      = (wopA :: wopB :: []).map (fun op => (op.resourceType, op.resourceID, op.type)) := by
  have h := bulk_commit_failure_replays witnessParser wOracle "tenant" wopA wopB [] []
    [⟨"tenant", "Users", "a", ⟨"a", "a"⟩⟩, ⟨"tenant", "Users", "b", ⟨"b", "b"⟩⟩] 0
    [NewBulkOperationResult wopA none, NewBulkOperationResult wopB none]
    (by decide) rfl rfl
  exact ⟨rfl, rfl, h.1, h.2⟩

/-- A SchoolUnit with a malformed id but a well-formed school unit code. -/
def wBadSchoolUnit : SchoolUnit :=
  ⟨"not-a-uuid", "12345678", "Bad unit", none, none, none, none⟩

theorem multiValidator_first_failure_witness :
    matchesUUID wBadSchoolUnit.externalID = false ∧
    MultiValidator [UUIDValidator, SchoolUnitCodeValidator]
        (.schoolUnit wBadSchoolUnit)
      = some ("invalid UUID: " ++ wBadSchoolUnit.externalID) :=
  ⟨by decide, multiValidator_first_failure.2 wBadSchoolUnit (by decide)⟩

theorem activity_group_normalisation_witness :
    (activityFromJSON { (⟨"id1", "dn", ⟨"o", "or"⟩, none, [], [], []⟩ : ActivityJSON)
        with group := some ⟨"g1", "r1"⟩ }).groups = [⟨"g1", "r1"⟩] ∧
    activityFromJSON { (⟨"id1", "dn", ⟨"o", "or"⟩, none, [], [], []⟩ : ActivityJSON)
        with group := some ⟨"g1", "r1"⟩ }
      = activityFromJSON { (⟨"id1", "dn", ⟨"o", "or"⟩, none, [], [], []⟩ : ActivityJSON)
          with group := none, groups := [⟨"g1", "r1"⟩] } :=
  activity_group_normalisation ⟨"id1", "dn", ⟨"o", "or"⟩, none, [], [], []⟩ ⟨"g1", "r1"⟩

theorem appendUnique_first_occurrence_witness :
    ((1 : Nat), "created") ∈ appendUnique [((1 : Nat), "created")]
        [((1 : Nat), "modified"), (2, "x")] Prod.fst ∧
    ((1 : Nat), "created") ∈ ([((1 : Nat), "created")] : List (Nat × String)) :=
  ⟨by decide, (appendUnique_first_occurrence Prod.fst).2
    [((1 : Nat), "created")] [((1 : Nat), "modified"), (2, "x")]
    ((1 : Nat), "created") (by decide) (by decide)⟩

end Windermere
